import Mathlib

/-!
Shallow embedding of the meme-coin aggregator core
(`src/services/aggregator.ts`, `src/services/cache.ts`, `src/utils/retry.ts`)
and proofs about it.  JS numbers are modelled as `Int`; optional numeric
fields as `Option Int`; JS truthiness of a number is `≠ 0`, of a string is
`≠ ""`.  `Array.prototype.sort` with a numeric comparator `cmp` is modelled
as the stable sort that puts `a` before `b` whenever `cmp a b ≤ 0`
(ECMAScript guarantees a stable sort consistent with the comparator).
-/

namespace Agg

/-! ### Generic stable insertion sort (model of JS `Array.prototype.sort`) -/

/-- Insert `a` in front of the first element `b` with `le a b`. -/
def orderedInsertB (le : α → α → Bool) (a : α) : List α → List α
  | [] => [a]
  | b :: l => if le a b then a :: b :: l else b :: orderedInsertB le a l

/-- Stable insertion sort: the unique stable sort agreeing with `le`. -/
def insertionSortB (le : α → α → Bool) : List α → List α
  | [] => []
  | b :: l => orderedInsertB le b (insertionSortB le l)

theorem orderedInsertB_perm (le : α → α → Bool) (a : α) :
    ∀ l : List α, List.Perm (orderedInsertB le a l) (a :: l)
  | [] => List.Perm.refl _
  | b :: l => by
    unfold orderedInsertB
    by_cases h : le a b
    · simp [h]
    · simp only [h, if_neg, Bool.false_eq_true, if_false]
      exact ((orderedInsertB_perm le a l).cons b).trans (List.Perm.swap a b l)

theorem insertionSortB_perm (le : α → α → Bool) :
    ∀ l : List α, List.Perm (insertionSortB le l) l
  | [] => List.Perm.refl _
  | b :: l => by
    unfold insertionSortB
    exact (orderedInsertB_perm le b _).trans ((insertionSortB_perm le l).cons b)

theorem orderedInsertB_pairwise (le : α → α → Bool)
    (htot : ∀ a b, le a b = true ∨ le b a = true)
    (htrans : ∀ a b c, le a b = true → le b c = true → le a c = true)
    (a : α) : ∀ l : List α,
    List.Pairwise (fun x y => le x y = true) l →
    List.Pairwise (fun x y => le x y = true) (orderedInsertB le a l)
  | [], _ => by simp [orderedInsertB]
  | b :: l, h => by
    unfold orderedInsertB
    by_cases hab : le a b
    · simp only [hab, if_true]
      refine List.Pairwise.cons ?_ h
      intro x hx
      rcases List.mem_cons.mp hx with rfl | hx
      · exact hab
      · exact htrans a b x hab ((List.pairwise_cons.mp h).1 x hx)
    · simp only [hab, Bool.false_eq_true, if_false]
      have hb := List.pairwise_cons.mp h
      have hba : le b a = true := (htot a b).resolve_left hab
      refine List.pairwise_cons.mpr ⟨?_, orderedInsertB_pairwise le htot htrans a l hb.2⟩
      intro x hx
      have := (orderedInsertB_perm le a l).mem_iff.mp hx
      rcases List.mem_cons.mp this with rfl | hx'
      · exact hba
      · exact hb.1 x hx'

theorem insertionSortB_pairwise (le : α → α → Bool)
    (htot : ∀ a b, le a b = true ∨ le b a = true)
    (htrans : ∀ a b c, le a b = true → le b c = true → le a c = true) :
    ∀ l : List α, List.Pairwise (fun x y => le x y = true) (insertionSortB le l)
  | [] => List.Pairwise.nil
  | b :: l =>
    orderedInsertB_pairwise le htot htrans b _ (insertionSortB_pairwise le htot htrans l)

theorem insertionSortB_of_true (le : α → α → Bool)
    (h : ∀ a b, le a b = true) : ∀ l : List α, insertionSortB le l = l
  | [] => rfl
  | b :: l => by
    unfold insertionSortB
    rw [insertionSortB_of_true le h l]
    cases l with
    | nil => rfl
    | cons c t => unfold orderedInsertB; simp [h]

/-- Stability, one key value at a time: inserting `a` does not disturb the
subsequence of elements satisfying `p`, provided every element `a` jumps
over fails `p`. -/
theorem filter_orderedInsertB_pos (le : α → α → Bool) (p : α → Bool) (a : α)
    (hpa : p a = true) (hskip : ∀ b, le a b = false → p b = false) :
    ∀ l : List α, (orderedInsertB le a l).filter p = a :: l.filter p
  | [] => by simp [orderedInsertB, hpa]
  | b :: l => by
    unfold orderedInsertB
    by_cases hab : le a b
    · simp [hab, List.filter_cons, hpa]
    · have hb : p b = false := hskip b (by simpa using hab)
      simp only [hab, Bool.false_eq_true, if_false, List.filter_cons, hb,
        Bool.false_eq_true, if_false]
      rw [filter_orderedInsertB_pos le p a hpa hskip l]

theorem filter_orderedInsertB_neg (le : α → α → Bool) (p : α → Bool) (a : α)
    (hpa : p a = false) :
    ∀ l : List α, (orderedInsertB le a l).filter p = l.filter p
  | [] => by simp [orderedInsertB, hpa]
  | b :: l => by
    unfold orderedInsertB
    by_cases hab : le a b
    · simp [hab, List.filter_cons, hpa]
    · simp only [hab, Bool.false_eq_true, if_false, List.filter_cons]
      rw [filter_orderedInsertB_neg le p a hpa l]

/-! ### JS primitives -/

/-- JS truthiness of an optional number (`undefined` and `0` are falsy). -/
def truthyNum (o : Option Int) : Bool :=
  match o with
  | none => false
  | some n => n != 0

/-- JS `x || y` for an optional number `x`: `y` when `x` is absent or `0`. -/
def jsOrNum (o : Option Int) (y : Int) : Int :=
  match o with
  | none => y
  | some n => if n = 0 then y else n

/-- JS template-literal rendering of an optional string
(`undefined` prints as `"undefined"`). -/
def tmplStr (o : Option String) : String := o.getD "undefined"

/-- Model of JS `String.prototype.toLowerCase` (ASCII; the identity keys
and category tags in play are ASCII). -/
def jsToLower (s : String) : String := String.mk (s.data.map Char.toLower)

/-- Decimal value of a maximal leading digit run; `none` when there is no
leading digit (the `NaN` outcome of `parseInt`). -/
def digitsVal (cs : List Char) : Option Nat :=
  let ds := cs.takeWhile Char.isDigit
  if ds.isEmpty then none
  else some (ds.foldl (fun a c => a * 10 + (c.toNat - 48)) 0)

/-- Model of JS `parseInt(s, 10)`: skip leading whitespace, optional sign,
then a maximal digit run; `none` models `NaN`. -/
def jsParseInt (s : String) : Option Int :=
  match s.data.dropWhile Char.isWhitespace with
  | '-' :: rest => (digitsVal rest).map (fun n => -(n : Int))
  | '+' :: rest => (digitsVal rest).map (fun n => (n : Int))
  | cs => (digitsVal cs).map (fun n => (n : Int))

/-- Model of JS `Array.prototype.slice(s, e)` (negative indices wrap from
the end, then the range is clamped). -/
def jsSlice (l : List α) (s e : Int) : List α :=
  let n : Int := l.length
  let s' : Int := if s < 0 then max (n + s) 0 else min s n
  let e' : Int := if e < 0 then max (n + e) 0 else min e n
  (l.drop s'.toNat).take (e'.toNat - s'.toNat)

/-- Case-insensitive-ready substring test: model of JS
`String.prototype.includes`. -/
def containsSubstr (hay pat : String) : Bool :=
  hay.data.tails.any (fun t => pat.data.isPrefixOf t)

/-! ### Data model (`src/types/token.ts`) -/

/-- The `Token` interface.  Optional TS fields become `Option`. -/
structure Token where
  token_address : String
  token_name : String
  token_ticker : String
  price_sol : Int
  market_cap_sol : Int
  volume_sol : Int
  liquidity_sol : Int
  transaction_count : Int
  price_1hr_change : Option Int := none
  price_24hr_change : Option Int := none
  price_7d_change : Option Int := none
  protocol : String
  source : Option String := none
  last_updated : Option Int := none
deriving Repr, DecidableEq

/-- The `FilterOptions` interface. -/
structure FilterOptions where
  timePeriod : Option String := none
  minVolume : Option Int := none
  minLiquidity : Option Int := none
  protocol : Option String := none
deriving Repr, DecidableEq

/-- The `SortOptions` interface; `field` and `order` are modelled as strings because the
route handler casts unvalidated query strings into them. -/
structure SortOptions where
  field : String
  order : String
deriving Repr, DecidableEq

/-- The `PaginationOptions` interface. -/
structure PaginationOptions where
  limit : Option Int := none
  cursor : Option String := none
deriving Repr, DecidableEq

/-! ### Merge engine (`TokenAggregator`, `src/services/aggregator.ts`) -/

/-- Embedding of `calculateDataCompleteness` (aggregator.ts:124-133). -/
def calculateDataCompleteness (t : Token) : Int :=
  (if t.volume_sol > 0 then 3 else 0)
  + (if t.liquidity_sol > 0 then 2 else 0)
  + (if t.market_cap_sol > 0 then 2 else 0)
  + (if t.transaction_count > 0 then 1 else 0)
  + (if t.price_1hr_change.isSome then 1 else 0)
  + (if t.price_24hr_change.isSome then 1 else 0)

/-- Embedding of `mergeTokenData` (aggregator.ts:100-122).  `score1 >= score2` picks
`token1` as primary; `market_cap_sol ||` falls back on a zero value; the
price guard `primary.last_updated && secondary.last_updated` is a JS
truthiness test, and `>` (not `>=`) sends timestamp ties to the secondary. -/
def mergeTokenData (token1 token2 : Token) : Token :=
  let score1 := calculateDataCompleteness token1
  let score2 := calculateDataCompleteness token2
  let primary := if score1 ≥ score2 then token1 else token2
  let secondary := if score1 ≥ score2 then token2 else token1
  { primary with
    source := some (tmplStr primary.source ++ "," ++ tmplStr secondary.source)
    volume_sol := max primary.volume_sol secondary.volume_sol
    liquidity_sol := max primary.liquidity_sol secondary.liquidity_sol
    market_cap_sol :=
      if primary.market_cap_sol = 0 then secondary.market_cap_sol
      else primary.market_cap_sol
    transaction_count := max primary.transaction_count secondary.transaction_count
    price_sol :=
      if truthyNum primary.last_updated ∧ truthyNum secondary.last_updated then
        if primary.last_updated.getD 0 > secondary.last_updated.getD 0 then
          primary.price_sol
        else secondary.price_sol
      else primary.price_sol }

/-- A JS `Map` is an insertion-ordered association list: `set` on an
existing key updates the value in place, otherwise appends. -/
def mapSet (m : List (String × Token)) (key : String) (t : Token) :
    List (String × Token) :=
  match m with
  | [] => [(key, t)]
  | (k, v) :: rest =>
    if k = key then (k, t) :: rest else (k, v) :: mapSet rest key t

/-- JS `Map.get`. -/
def mapGet (m : List (String × Token)) (key : String) : Option Token :=
  match m with
  | [] => none
  | (k, v) :: rest => if k = key then some v else mapGet rest key

/-- The body of the loop in `mergeTokens` (aggregator.ts:74-85). -/
def mergeStep (m : List (String × Token)) (token : Token) :
    List (String × Token) :=
  let key := jsToLower token.token_address
  match mapGet m key with
  | none => mapSet m key token
  | some existing => mapSet m key (mergeTokenData existing token)

/-- Embedding of `mergeTokens` (aggregator.ts:71-88): fold the batch into the map, then
return the values in insertion order. -/
def mergeTokens (tokens : List Token) : List Token :=
  (tokens.foldl mergeStep []).map Prod.snd

/-- The cap `MAX_AGGREGATED_TOKENS` (aggregator.ts:7, default 200). -/
def MAX_AGGREGATED_TOKENS : Nat := 200

/-- The comparator `(b.volume_sol || 0) - (a.volume_sol || 0)` keeps `a`
before `b` iff `b`'s volume is at most `a`'s. -/
def volumeDescLe (a b : Token) : Bool := b.volume_sol ≤ a.volume_sol

/-- Embedding of `limitTokens` (aggregator.ts:90-98). -/
def limitTokens (tokens : List Token) : List Token :=
  if tokens.length ≤ MAX_AGGREGATED_TOKENS then tokens
  else (insertionSortB volumeDescLe tokens).take MAX_AGGREGATED_TOKENS

/-! ### View pipeline (`filterTokens`, `sortTokens`, `paginateTokens`) -/

/-- Dynamic property read `token[name]` for the change fields: any name
that is not an actual `Token` property yields `undefined`.  (The `Token`
interface spells its fields `price_1hr_change` / `price_24hr_change` /
`price_7d_change`.) -/
def tokenChangeField (t : Token) (name : String) : Option Int :=
  if name = "price_1hr_change" then t.price_1hr_change
  else if name = "price_24hr_change" then t.price_24hr_change
  else if name = "price_7d_change" then t.price_7d_change
  else none

/-- Embedding of `filterTokens` (aggregator.ts:135-161).  `if (options.timePeriod)` and
`if (options.protocol)` are truthiness tests (an empty string skips the
filter); the change field is looked up under the computed name
`price_${timePeriod}_change`. -/
def filterTokens (tokens : List Token) (options : FilterOptions) :
    List Token :=
  let f1 :=
    match options.timePeriod with
    | some p =>
      if p = "" then tokens
      else tokens.filter
        (fun t => (tokenChangeField t ("price_" ++ p ++ "_change")).isSome)
    | none => tokens
  let f2 :=
    match options.minVolume with
    | some v => f1.filter (fun t => v ≤ t.volume_sol)
    | none => f1
  let f3 :=
    match options.minLiquidity with
    | some v => f2.filter (fun t => v ≤ t.liquidity_sol)
    | none => f2
  match options.protocol with
  | some p =>
    if p = "" then f3
    else f3.filter (fun t => containsSubstr (jsToLower t.protocol) (jsToLower p))
  | none => f3

/-- The `price_change` sort key
`a.price_24hr_change || a.price_1hr_change || 0` (aggregator.ts:176):
JS `||` falls through on `undefined` and on `0`. -/
def priceChangeKey (t : Token) : Int :=
  jsOrNum t.price_24hr_change (jsOrNum t.price_1hr_change 0)

/-- The key extracted by the `switch` in `sortTokens`; `none` is the
`default` branch (comparator constantly `0`). -/
def sortKeyFn (field : String) : Option (Token → Int) :=
  if field = "volume" then some (fun t => t.volume_sol)
  else if field = "price_change" then some priceChangeKey
  else if field = "market_cap" then some (fun t => t.market_cap_sol)
  else if field = "liquidity" then some (fun t => t.liquidity_sol)
  else if field = "transaction_count" then some (fun t => t.transaction_count)
  else none

/-- Whether `a` may stay before `b` under the comparator of `sortTokens`
(aggregator.ts:166-200): comparator value `≤ 0`. -/
def sortLe (options : SortOptions) (a b : Token) : Bool :=
  match sortKeyFn options.field with
  | some k => if options.order = "asc" then k a ≤ k b else k b ≤ k a
  | none => true

/-- Embedding of `sortTokens` (aggregator.ts:163-203): stable JS sort under the
comparator. -/
def sortTokens (tokens : List Token) (options : SortOptions) : List Token :=
  insertionSortB (sortLe options) tokens

/-- The cursor-to-offset logic of `paginateTokens` (aggregator.ts:210-221):
`parseInt`, with `NaN` and negative values clamped to `0`; an absent or
empty (falsy) cursor is offset `0`. -/
def startIndexOf (cursor : Option String) : Int :=
  match cursor with
  | none => 0
  | some c =>
    if c = "" then 0
    else
      match jsParseInt c with
      | none => 0
      | some i => if i < 0 then 0 else i

/-- Embedding of `paginateTokens` (aggregator.ts:205-228). -/
def paginateTokens (tokens : List Token) (options : PaginationOptions) :
    List Token × Option String :=
  let limit := jsOrNum options.limit 20
  let startIndex := startIndexOf options.cursor
  let endIndex := startIndex + limit
  (jsSlice tokens startIndex endIndex,
   if endIndex < (tokens.length : Int) then some (toString endIndex) else none)

/-! ### Retryable executor (`src/utils/retry.ts`) -/

/-- What the retry loop inspects about a thrown error:
`axios.isAxiosError(error)` and `error.response?.status`. -/
structure JsError where
  isAxiosError : Bool
  status : Option Nat := none
deriving Repr, DecidableEq

/-- The list `defaultConfig.retryableStatusCodes` (retry.ts:15). -/
def retryableStatusCodes : List Nat := [429, 500, 502, 503, 504]

/-- The `isRetryable` test (retry.ts:53-56): an axios error whose response
status is in the configured list. -/
def isRetryable (codes : List Nat) (e : JsError) : Bool :=
  e.isAxiosError &&
    (match e.status with
     | some s => codes.contains s
     | none => false)

/-- The loop of `retryWithBackoff` (retry.ts:43-72), from `attempt` with
`fuel = maxRetries - attempt` tries left.  `fn k` is the outcome of the
`k`-th invocation of the wrapped operation; the second component counts
invocations actually performed.  When `fuel = 0` (i.e.
`attempt === maxRetries`) a failure breaks out of the loop and the last
error is thrown; otherwise an error that is neither retryable nor an axios
error at all is rethrown immediately (retry.ts:58-60). -/
def retryGo (fn : Nat → Except JsError α) (codes : List Nat) :
    Nat → Nat → Except JsError α × Nat
  | attempt, 0 =>
    (match fn attempt with
     | .ok v => (.ok v, 1)
     | .error e => (.error e, 1))
  | attempt, fuel + 1 =>
    match fn attempt with
    | .ok v => (.ok v, 1)
    | .error e =>
      if !(isRetryable codes e) && !e.isAxiosError then (.error e, 1)
      else
        let r := retryGo fn codes (attempt + 1) fuel
        (r.1, r.2 + 1)

/-- Embedding of `retryWithBackoff` (retry.ts:32-73) with its invocation count. -/
def retryWithBackoff (fn : Nat → Except JsError α) (codes : List Nat)
    (maxRetries : Nat) : Except JsError α × Nat :=
  retryGo fn codes 0 maxRetries

/-! ### Fetch orchestration (`aggregateTokens`, aggregator.ts:25-69) -/

/-- The `Promise.allSettled` join (aggregator.ts:41-52): a fulfilled source
contributes its batch, a rejected one contributes `[]`. -/
def settleAll (results : List (Except JsError (List Token))) : List Token :=
  (results.map (fun r =>
    match r with
    | .ok tokens => tokens
    | .error _ => [])).flatten

/-- The compute function passed to `getOrSet` by `aggregateTokens`,
evaluated on the settled per-provider outcomes: it never throws, so the
call resolves (`.ok`) for every outcome vector. -/
def aggregateTokens (results : List (Except JsError (List Token))) :
    Except JsError (List Token) :=
  let aggregated := settleAll results
  if aggregated.length = 0 then .ok []
  else .ok (limitTokens (mergeTokens aggregated))

/-! ### Cache store concurrency (`getOrSet`, `src/services/cache.ts:161-176`)

Cooperative (event-loop) interleaving model for one cache key within one
TTL window.  Each `getOrSet` caller runs three atomic phases separated by
`await` suspension points:
`read` (`await this.get(key)`), `invoke` (`await fetchFn()`), and
`write` (`await this.set(...)`, after which the caller returns its own
computed value).  A schedule is the list of caller ids in the order the
event loop resumes them; a finished caller ignores further slots. -/

/-- Progress of one `getOrSet` caller. -/
inductive CallerPhase (V : Type) where
  | ready
  | toInvoke
  | toWrite (v : V)
  | finished (v : V)
deriving Repr, DecidableEq

/-- Shared state: the cache slot for the key, the number of times the
compute function has been invoked, and each caller's phase. -/
structure CacheRun (V : Type) where
  slot : Option V
  invocations : Nat
  phase : Nat → CallerPhase V

/-- One event-loop resumption of caller `i`.  `fetch k` is the value
produced by the `k`-th invocation of the compute function (a deterministic
compute function is a constant `fetch`). -/
def cacheStep (fetch : Nat → V) (s : CacheRun V) (i : Nat) : CacheRun V :=
  match s.phase i with
  | .ready =>
    match s.slot with
    | some v => { s with phase := fun j => if j = i then .finished v else s.phase j }
    | none => { s with phase := fun j => if j = i then .toInvoke else s.phase j }
  | .toInvoke =>
    { s with
      invocations := s.invocations + 1
      phase := fun j => if j = i then .toWrite (fetch s.invocations) else s.phase j }
  | .toWrite v =>
    { s with
      slot := some v
      phase := fun j => if j = i then .finished v else s.phase j }
  | .finished _ => s

/-- Initial state: empty cache (every caller starts on a miss window),
no invocations, all callers at their first suspension point. -/
def cacheInit (V : Type) : CacheRun V :=
  { slot := none, invocations := 0, phase := fun _ => .ready }

/-- Run a schedule. -/
def cacheRun (fetch : Nat → V) (sched : List Nat) : CacheRun V :=
  sched.foldl (cacheStep fetch) (cacheInit V)

/-- The schedule in which callers `0..n-1` all execute their cache read
(and miss) before any compute resolves — exactly the premise "`N`
concurrent calls while the compute function is still pending" — and then
each caller's compute and write resolve. -/
def concurrentSched (n : Nat) : List Nat :=
  (List.range n) ++ (List.range n).flatMap (fun i => [i, i])

/-! ### Helper lemmas about the merge map -/

/-- The case-insensitive identity key of a record. -/
def keyOf (t : Token) : String := jsToLower t.token_address

theorem mapGet_eq_none_iff (m : List (String × Token)) (k : String) :
    mapGet m k = none ↔ k ∉ m.map Prod.fst := by
  induction m with
  | nil => simp [mapGet]
  | cons p rest ih =>
    obtain ⟨k', v⟩ := p
    by_cases h : k' = k
    · subst h; simp [mapGet]
    · simp [mapGet, h, Ne.symm h, ih]

theorem mapGet_mem {m : List (String × Token)} {k : String} {v : Token} :
    mapGet m k = some v → (k, v) ∈ m := by
  induction m with
  | nil => simp [mapGet]
  | cons p rest ih =>
    obtain ⟨k', w⟩ := p
    by_cases h : k' = k
    · subst h
      intro hv
      have hw : w = v := by simpa [mapGet] using hv
      subst hw
      exact List.mem_cons_self _ _
    · intro hv
      have hv' : mapGet rest k = some v := by simpa [mapGet, h] using hv
      exact List.mem_cons_of_mem _ (ih hv')

theorem mapSet_fst_of_mem {m : List (String × Token)} {k : String}
    (t : Token) (h : k ∈ m.map Prod.fst) :
    (mapSet m k t).map Prod.fst = m.map Prod.fst := by
  induction m with
  | nil => simp at h
  | cons p rest ih =>
    obtain ⟨k', v⟩ := p
    by_cases hk : k' = k
    · simp [mapSet, hk]
    · have : k ∈ rest.map Prod.fst := by
        simpa [hk, Ne.symm hk] using h
      simp [mapSet, hk, ih this]

theorem mapSet_fst_of_not_mem {m : List (String × Token)} {k : String}
    (t : Token) (h : k ∉ m.map Prod.fst) :
    (mapSet m k t).map Prod.fst = m.map Prod.fst ++ [k] := by
  induction m with
  | nil => simp [mapSet]
  | cons p rest ih =>
    obtain ⟨k', v⟩ := p
    have hk : k' ≠ k := by
      intro hkk; exact h (by simp [hkk])
    have : k ∉ rest.map Prod.fst := fun hm => h (by simp [hm])
    simp [mapSet, hk, ih this]

theorem mapSet_mem_cases {m : List (String × Token)} {k : String} {t : Token} :
    ∀ p ∈ mapSet m k t, p = (k, t) ∨ p ∈ m := by
  induction m with
  | nil => simp [mapSet]
  | cons q rest ih =>
    obtain ⟨k', v⟩ := q
    by_cases hk : k' = k
    · subst hk
      intro p hp
      rcases List.mem_cons.mp (by simpa [mapSet] using hp) with rfl | hp'
      · exact Or.inl rfl
      · exact Or.inr (List.mem_cons_of_mem _ hp')
    · intro p hp
      rcases List.mem_cons.mp (by simpa [mapSet, hk] using hp) with rfl | hp'
      · exact Or.inr (List.mem_cons_self _ _)
      · rcases ih p hp' with h | h
        · exact Or.inl h
        · exact Or.inr (List.mem_cons_of_mem _ h)

/-- The primary record of a merge is one of the two inputs, so merging two
records with the same key yields a record with that key. -/
theorem keyOf_mergeTokenData {t1 t2 : Token} {k : String}
    (h1 : keyOf t1 = k) (h2 : keyOf t2 = k) :
    keyOf (mergeTokenData t1 t2) = k := by
  by_cases hsc : calculateDataCompleteness t1 ≥ calculateDataCompleteness t2
  · simpa [keyOf, mergeTokenData, hsc] using h1
  · simpa [keyOf, mergeTokenData, hsc] using h2

theorem mergeStep_fst (m : List (String × Token)) (t : Token) :
    (mergeStep m t).map Prod.fst =
      if keyOf t ∈ m.map Prod.fst then m.map Prod.fst
      else m.map Prod.fst ++ [keyOf t] := by
  rcases hg : mapGet m (jsToLower t.token_address) with _ | v
  · have hnm : keyOf t ∉ m.map Prod.fst := (mapGet_eq_none_iff m _).mp hg
    simp only [mergeStep, hg, keyOf] at hnm ⊢
    rw [mapSet_fst_of_not_mem _ hnm, if_neg hnm]
  · have hm : keyOf t ∈ m.map Prod.fst :=
      List.mem_map.mpr ⟨(jsToLower t.token_address, v), mapGet_mem hg, rfl⟩
    simp only [mergeStep, hg, keyOf] at hm ⊢
    rw [mapSet_fst_of_mem _ hm, if_pos hm]

theorem mergeStep_inv {m : List (String × Token)}
    (hinv : ∀ p ∈ m, keyOf p.2 = p.1) (t : Token) :
    ∀ p ∈ mergeStep m t, keyOf p.2 = p.1 := by
  intro p hp
  rcases hg : mapGet m (jsToLower t.token_address) with _ | v
  · rw [mergeStep] at hp
    simp only [hg] at hp
    rcases mapSet_mem_cases p hp with rfl | hp'
    · rfl
    · exact hinv p hp'
  · rw [mergeStep] at hp
    simp only [hg] at hp
    rcases mapSet_mem_cases p hp with rfl | hp'
    · have hv : keyOf v = jsToLower t.token_address := hinv _ (mapGet_mem hg)
      exact keyOf_mergeTokenData hv rfl
    · exact hinv p hp'

/-- Invariants carried through the merge pass: the map keys stay distinct,
every stored record lowercases to its key, and the key set is the key set
of the processed batch. -/
theorem foldl_mergeStep_spec (tokens : List Token) :
    ∀ m : List (String × Token), (m.map Prod.fst).Nodup →
      (∀ p ∈ m, keyOf p.2 = p.1) →
      ((tokens.foldl mergeStep m).map Prod.fst).Nodup ∧
      (∀ p ∈ tokens.foldl mergeStep m, keyOf p.2 = p.1) ∧
      (∀ k, k ∈ (tokens.foldl mergeStep m).map Prod.fst ↔
        k ∈ m.map Prod.fst ∨ k ∈ tokens.map keyOf) := by
  induction tokens with
  | nil => intro m h1 h2; exact ⟨h1, h2, by simp⟩
  | cons t rest ih =>
    intro m h1 h2
    have hfst := mergeStep_fst m t
    have h1' : ((mergeStep m t).map Prod.fst).Nodup := by
      rw [hfst]
      by_cases hmem : keyOf t ∈ m.map Prod.fst
      · simpa [hmem] using h1
      · simp only [hmem, if_false]
        refine List.Nodup.append h1 (List.nodup_singleton _) ?_
        intro a ha hb
        rw [List.mem_singleton] at hb
        subst hb
        exact hmem ha
    have h2' := mergeStep_inv h2 t
    obtain ⟨g1, g2, g3⟩ := ih (mergeStep m t) h1' h2'
    refine ⟨g1, g2, fun k => ?_⟩
    rw [List.foldl_cons] at *
    rw [g3 k, hfst]
    by_cases hmem : keyOf t ∈ m.map Prod.fst
    · simp only [hmem, if_true, List.map_cons, List.mem_cons]
      constructor
      · rintro (h | h)
        · exact Or.inl h
        · exact Or.inr (Or.inr h)
      · rintro (h | h | h)
        · exact Or.inl h
        · exact Or.inl (h ▸ hmem)
        · exact Or.inr h
    · simp only [hmem, if_false, List.mem_append, List.mem_singleton,
        List.map_cons, List.mem_cons]
      tauto

/-! ### C5 -/

/-- C5: For every input batch of raw records, the merge produces a result
whose size equals the number of distinct case-insensitive identity keys
present in the batch, and each identity key occurs at most once in the
result. -/
theorem mergeTokens_distinct_keys (tokens : List Token) :
    ((mergeTokens tokens).map keyOf).Nodup ∧
    (mergeTokens tokens).length = ((tokens.map keyOf).dedup).length := by
  obtain ⟨h1, h2, h3⟩ := foldl_mergeStep_spec tokens [] (by simp) (by simp)
  have hmap : (mergeTokens tokens).map keyOf =
      (tokens.foldl mergeStep []).map Prod.fst := by
    unfold mergeTokens
    rw [List.map_map]
    exact List.map_congr_left (fun p hp => h2 p hp)
  refine ⟨hmap ▸ h1, ?_⟩
  have hperm : List.Perm ((tokens.foldl mergeStep []).map Prod.fst)
      ((tokens.map keyOf).dedup) := by
    rw [List.perm_ext_iff_of_nodup h1 (List.nodup_dedup _)]
    intro a
    rw [List.mem_dedup]
    simpa using h3 a
  calc (mergeTokens tokens).length
      = ((mergeTokens tokens).map keyOf).length := (List.length_map _ _).symm
    _ = ((tokens.foldl mergeStep []).map Prod.fst).length := by rw [hmap]
    _ = ((tokens.map keyOf).dedup).length := hperm.length_eq

/-! ### C6 -/

theorem volumeDescLe_total (a b : Token) :
    volumeDescLe a b = true ∨ volumeDescLe b a = true := by
  simp only [volumeDescLe, decide_eq_true_eq]
  exact Int.le_total _ _

theorem volumeDescLe_trans (a b c : Token) :
    volumeDescLe a b = true → volumeDescLe b c = true →
    volumeDescLe a c = true := by
  simp only [volumeDescLe, decide_eq_true_eq]
  intro h1 h2
  exact le_trans h2 h1

/-- C6: a merged list longer than the cap (default 200) is cut to exactly
the cap, every retained record's volume is at least every discarded
record's volume, and a list within the cap is returned unchanged. -/
theorem limitTokens_spec (tokens : List Token) :
    (tokens.length ≤ MAX_AGGREGATED_TOKENS → limitTokens tokens = tokens) ∧
    (MAX_AGGREGATED_TOKENS < tokens.length →
      (limitTokens tokens).length = MAX_AGGREGATED_TOKENS ∧
      ∃ dropped,
        List.Perm (limitTokens tokens ++ dropped) tokens ∧
        ∀ x ∈ limitTokens tokens, ∀ y ∈ dropped,
          y.volume_sol ≤ x.volume_sol) := by
  constructor
  · intro h
    unfold limitTokens
    rw [if_pos h]
  · intro h
    have hnle : ¬ tokens.length ≤ MAX_AGGREGATED_TOKENS := not_le.mpr h
    have hlim : limitTokens tokens =
        (insertionSortB volumeDescLe tokens).take MAX_AGGREGATED_TOKENS := by
      unfold limitTokens
      rw [if_neg hnle]
    have hperm := insertionSortB_perm volumeDescLe tokens
    have hsortlen : (insertionSortB volumeDescLe tokens).length = tokens.length :=
      hperm.length_eq
    have hpw := insertionSortB_pairwise volumeDescLe volumeDescLe_total
      volumeDescLe_trans tokens
    refine ⟨?_, (insertionSortB volumeDescLe tokens).drop MAX_AGGREGATED_TOKENS,
      ?_, ?_⟩
    · rw [hlim, List.length_take, hsortlen]
      exact Nat.min_eq_left (Nat.le_of_lt h)
    · rw [hlim, List.take_append_drop]
      exact hperm
    · intro x hx y hy
      rw [hlim] at hx
      have hsplit := List.take_append_drop MAX_AGGREGATED_TOKENS
        (insertionSortB volumeDescLe tokens)
      have hpw' := hsplit ▸ hpw
      have := (List.pairwise_append.mp hpw').2.2 x hx y hy
      simpa [volumeDescLe, decide_eq_true_eq] using this

/-- A sample record for the cap witness. -/
def tok6 : Token :=
  { token_address := "0xA", token_name := "A", token_ticker := "A"
    price_sol := 1, market_cap_sol := 0, volume_sol := 7
    liquidity_sol := 0, transaction_count := 0, protocol := "p" }

/-- Witness for C6 at a batch of 201 records. -/
theorem limitTokens_spec_witness :
    200 < (List.replicate 201 tok6).length ∧
    ((limitTokens (List.replicate 201 tok6)).length = MAX_AGGREGATED_TOKENS ∧
      ∃ dropped,
        List.Perm (limitTokens (List.replicate 201 tok6) ++ dropped)
          (List.replicate 201 tok6) ∧
        ∀ x ∈ limitTokens (List.replicate 201 tok6), ∀ y ∈ dropped,
          y.volume_sol ≤ x.volume_sol) :=
  ⟨by rw [List.length_replicate]; norm_num [MAX_AGGREGATED_TOKENS],
   (limitTokens_spec (List.replicate 201 tok6)).2
     (by rw [List.length_replicate]; norm_num [MAX_AGGREGATED_TOKENS])⟩

/-! ### C10 -/

/-- A stable sort does not disturb the subsequence of elements agreeing on
the sort key (here: satisfying `p`), when `le` holds between any two such
elements. -/
theorem insertionSortB_filter_eq (le : α → α → Bool) (p : α → Bool)
    (hcompat : ∀ a b, p a = true → p b = true → le a b = true) :
    ∀ l : List α, (insertionSortB le l).filter p = l.filter p
  | [] => rfl
  | b :: l => by
    unfold insertionSortB
    rcases hpb : p b with _ | _
    · rw [filter_orderedInsertB_neg le p b hpb,
        insertionSortB_filter_eq le p hcompat l]
      simp [List.filter_cons, hpb]
    · have hskip : ∀ x, le b x = false → p x = false := by
        intro x hx
        rcases hpx : p x with _ | _
        · rfl
        · rw [hcompat b x hpb hpx] at hx
          exact absurd hx (by simp)
      rw [filter_orderedInsertB_pos le p b hpb hskip,
        insertionSortB_filter_eq le p hcompat l]
      simp [List.filter_cons, hpb]

/-- C10 (amended): `sortTokens` permutes its input; it is sorted by the
key the code actually computes (for `price_change` that key is
`price_24hr_change || price_1hr_change || 0`, which falls through on a
`0` value, not only on an absent one) in the requested direction
(anything other than `"asc"` sorts descending); records with equal keys
keep their relative order (stability); an unrecognized field returns the
records unchanged, not an error. -/
theorem sortTokens_spec (tokens : List Token) (options : SortOptions) :
    List.Perm (sortTokens tokens options) tokens ∧
    (sortKeyFn options.field = none → sortTokens tokens options = tokens) ∧
    (∀ k, sortKeyFn options.field = some k →
      (options.order = "asc" →
        List.Pairwise (fun a b => k a ≤ k b) (sortTokens tokens options)) ∧
      (options.order ≠ "asc" →
        List.Pairwise (fun a b => k b ≤ k a) (sortTokens tokens options)) ∧
      (∀ v : Int, (sortTokens tokens options).filter (fun t => k t == v)
          = tokens.filter (fun t => k t == v))) := by
  refine ⟨insertionSortB_perm _ tokens, ?_, ?_⟩
  · intro hk
    exact insertionSortB_of_true _ (fun a b => by simp [sortLe, hk]) tokens
  · intro k hk
    have htot : ∀ a b, sortLe options a b = true ∨ sortLe options b a = true := by
      intro a b
      by_cases horder : options.order = "asc" <;>
        simp [sortLe, hk, horder] <;>
        [exact Int.le_total (k a) (k b); exact Int.le_total (k b) (k a)]
    have htrans : ∀ a b c, sortLe options a b = true →
        sortLe options b c = true → sortLe options a c = true := by
      intro a b c
      by_cases horder : options.order = "asc" <;>
        simp [sortLe, hk, horder] <;>
        intro h1 h2 <;> omega
    refine ⟨?_, ?_, ?_⟩
    · intro horder
      refine (insertionSortB_pairwise _ htot htrans tokens).imp ?_
      intro a b hab
      simpa [sortLe, hk, horder] using hab
    · intro horder
      refine (insertionSortB_pairwise _ htot htrans tokens).imp ?_
      intro a b hab
      simpa [sortLe, hk, horder] using hab
    · intro v
      refine insertionSortB_filter_eq _ _ ?_ tokens
      intro a b ha hb
      have ha' : k a = v := by simpa using ha
      have hb' : k b = v := by simpa using hb
      by_cases horder : options.order = "asc" <;>
        simp [sortLe, hk, horder, ha', hb']

/-- The `price_change` sort key as the claim words it: the long-period
(24h) change if present, else the short-period (1h) change, else zero. -/
def specPriceChangeKey (t : Token) : Int :=
  match t.price_24hr_change with
  | some v => v
  | none =>
    match t.price_1hr_change with
    | some v => v
    | none => 0

/-- A record whose 24h change is present but `0`: the claim gives it sort
key `0`, the code falls through to the 1h change `5`. -/
def r10a : Token :=
  { token_address := "a1", token_name := "A", token_ticker := "A"
    price_sol := 0, market_cap_sol := 0, volume_sol := 0
    liquidity_sol := 0, transaction_count := 0
    price_24hr_change := some 0, price_1hr_change := some 5
    protocol := "p" }

/-- A record with 24h change `3` and no 1h change (both keys agree: `3`). -/
def r10b : Token :=
  { token_address := "b1", token_name := "B", token_ticker := "B"
    price_sol := 0, market_cap_sol := 0, volume_sol := 0
    liquidity_sol := 0, transaction_count := 0
    price_24hr_change := some 3, price_1hr_change := none
    protocol := "p" }

/-- Counterexample to C10 as stated: under the claim's key, the stable
ascending `price_change` sort of `[r10a, r10b]` would be `[r10a, r10b]`
(keys `0 < 3`), but the code returns `[r10b, r10a]` because its key for
`r10a` is `5`, the `0` value having fallen through JS `||`. -/
theorem sortTokens_counterexample :
    sortTokens [r10a, r10b] { field := "price_change", order := "asc" }
      = [r10b, r10a] ∧
    specPriceChangeKey r10a < specPriceChangeKey r10b ∧
    priceChangeKey r10a = 5 := by
  refine ⟨?_, by decide, by decide⟩
  decide

/-- Witness for C10 (amended) at a concrete list: sorted ascending by
volume, and a bogus field is a no-op. -/
theorem sortTokens_spec_witness :
    List.Pairwise (fun a b : Token => a.volume_sol ≤ b.volume_sol)
      (sortTokens [r10a, r10b] { field := "volume", order := "asc" }) ∧
    sortTokens [r10a, r10b] { field := "bogus", order := "asc" }
      = [r10a, r10b] := by
  constructor
  · exact ((sortTokens_spec [r10a, r10b] ⟨"volume", "asc"⟩).2.2
      (fun t => t.volume_sol) rfl).1 rfl
  · exact (sortTokens_spec [r10a, r10b] ⟨"bogus", "asc"⟩).2.1 rfl

/-! ### C9 -/

/-- The first record of the repository's own `filterTokens` unit test
(a 1h change of `10` is present). -/
def t9 : Token :=
  { token_address := "0x123", token_name := "Token A", token_ticker := "TKA"
    price_sol := 1, market_cap_sol := 1000, volume_sol := 500
    liquidity_sol := 200, transaction_count := 100
    price_1hr_change := some 10, price_24hr_change := some 20
    protocol := "Raydium", source := some "dexscreener" }

/-- The same record with a 7d change of exactly `0`. -/
def t9d : Token := { t9 with price_7d_change := some 0 }

/-- C9, evaluated at the failing input: the time-period filter looks the
change value up under the computed name `price_1h_change`, but the
`Token` property is spelled `price_1hr_change`, so for `"1h"` (and
`"24h"`) every record reads `undefined` and is dropped — even `t9`,
whose 1h change is present.  The repository's own test
(`TokenAggregator › filterTokens › should filter by time period`)
expects such records to be kept.  Only `"7d"`, whose computed name
`price_7d_change` matches the property, behaves as the claim states
(keeping a present change of exactly `0`). -/
theorem filterTokens_timePeriod_mismatch :
    filterTokens [t9] { timePeriod := some "1h" } = [] ∧
    t9.price_1hr_change = some 10 ∧
    filterTokens [t9] { timePeriod := some "24h" } = [] ∧
    t9.price_24hr_change = some 20 ∧
    filterTokens [t9d] { timePeriod := some "7d" } = [t9d] ∧
    t9d.price_7d_change = some 0 := by
  refine ⟨by decide, by decide, by decide, by decide, by decide, by decide⟩

/-! ### C8 -/

/-- Slicing with non-negative endpoints is drop-then-take. -/
theorem jsSlice_nonneg (l : List α) (a b : Nat) :
    jsSlice l (a : Int) (b : Int) = (l.drop a).take (b - a) := by
  unfold jsSlice
  have ha : ¬ ((a : Int) < 0) := by omega
  have hb : ¬ ((b : Int) < 0) := by omega
  simp only [ha, hb, if_false]
  have hsa : (min (a : Int) (l.length : Int)).toNat = min a l.length := by omega
  have hsb : (min (b : Int) (l.length : Int)).toNat = min b l.length := by omega
  rw [hsa, hsb]
  by_cases han : a ≤ l.length
  · rw [Nat.min_eq_left han]
    by_cases hbn : b ≤ l.length
    · rw [Nat.min_eq_left hbn]
    · rw [Nat.min_eq_right (by omega : l.length ≤ b)]
      have hlen : (l.drop a).length = l.length - a := List.length_drop a l
      rw [List.take_of_length_le (by omega : (l.drop a).length ≤ l.length - a),
        List.take_of_length_le (by omega : (l.drop a).length ≤ b - a)]
  · have h1 : min a l.length = l.length := Nat.min_eq_right (by omega)
    rw [h1]
    have h2 : l.drop l.length = [] := List.drop_length l
    have h3 : l.drop a = [] := List.drop_eq_nil_of_le (by omega)
    rw [h2, h3, List.take_nil, List.take_nil]

/-- C8: `paginate` is total (the model is a function — no error path);
an unparseable cursor behaves exactly like cursor `"0"`; absent,
unparseable or negative cursors clamp to offset `0`; an absent limit
behaves as the default `20`; with limit `L > 0` the returned page is the
`L`-record slice starting at the cursor offset, and the next cursor
equals the new offset `start + L`, present exactly when that offset is
still inside the record list (records remain beyond the slice). -/
theorem paginateTokens_spec (tokens : List Token) (options : PaginationOptions) :
    (paginateTokens tokens { options with cursor := some "not-a-number" }
      = paginateTokens tokens { options with cursor := some "0" }) ∧
    (startIndexOf none = 0) ∧
    (∀ c, jsParseInt c = none → startIndexOf (some c) = 0) ∧
    (∀ c i, jsParseInt c = some i → i < 0 → startIndexOf (some c) = 0) ∧
    (options.limit = none →
      paginateTokens tokens options
        = paginateTokens tokens { options with limit := some 20 }) ∧
    (∀ L : Int, options.limit = some L → 0 < L →
      (paginateTokens tokens options).1
        = (tokens.drop (startIndexOf options.cursor).toNat).take L.toNat ∧
      (paginateTokens tokens options).1.length ≤ L.toNat ∧
      (paginateTokens tokens options).2
        = (if startIndexOf options.cursor + L < (tokens.length : Int)
           then some (toString (startIndexOf options.cursor + L))
           else none)) := by
  have hstart0 : ∀ (c : Option String), 0 ≤ startIndexOf c := by
    intro c
    rcases c with _ | c
    · simp [startIndexOf]
    · by_cases hc : c = ""
      · simp [startIndexOf, hc]
      · rcases hp : jsParseInt c with _ | i
        · simp [startIndexOf, hc, hp]
        · by_cases hi : i < 0 <;> simp [startIndexOf, hc, hp, hi]
          omega
  refine ⟨?_, rfl, ?_, ?_, ?_, ?_⟩
  · have h0 : startIndexOf (some "not-a-number") = startIndexOf (some "0") := by
      decide
    simp only [paginateTokens]
    rw [h0]
  · intro c hp
    by_cases hc : c = "" <;> simp [startIndexOf, hc, hp]
  · intro c i hp hi
    have hc : c ≠ "" := by
      intro hc
      have hne : jsParseInt "" = none := rfl
      rw [hc, hne] at hp
      exact Option.noConfusion hp
    simp [startIndexOf, hc, hp, hi]
  · intro h
    simp [paginateTokens, h, jsOrNum]
  · intro L hL hpos
    have hlim : jsOrNum options.limit 20 = L := by
      rw [hL]; simp [jsOrNum]; omega
    have hs := hstart0 options.cursor
    have hcast : startIndexOf options.cursor
        = ((startIndexOf options.cursor).toNat : Int) := by omega
    refine ⟨?_, ?_, ?_⟩
    · show jsSlice tokens (startIndexOf options.cursor)
        (startIndexOf options.cursor + jsOrNum options.limit 20) = _
      rw [hlim, hcast]
      have hLc : (startIndexOf options.cursor).toNat + L.toNat
          = ((startIndexOf options.cursor).toNat + L.toNat : Nat) := rfl
      rw [show ((startIndexOf options.cursor).toNat : Int) + L
          = (((startIndexOf options.cursor).toNat + L.toNat : Nat) : Int) by omega]
      rw [jsSlice_nonneg]
      congr 1
      omega
    · show (jsSlice tokens (startIndexOf options.cursor)
        (startIndexOf options.cursor + jsOrNum options.limit 20)).length ≤ L.toNat
      rw [hlim, hcast,
        show ((startIndexOf options.cursor).toNat : Int) + L
          = (((startIndexOf options.cursor).toNat + L.toNat : Nat) : Int) by omega,
        jsSlice_nonneg]
      calc ((tokens.drop (startIndexOf options.cursor).toNat).take
              ((startIndexOf options.cursor).toNat + L.toNat
                - (startIndexOf options.cursor).toNat)).length
          ≤ (startIndexOf options.cursor).toNat + L.toNat
              - (startIndexOf options.cursor).toNat := List.length_take_le _ _
        _ = L.toNat := by omega
    · show (if startIndexOf options.cursor + jsOrNum options.limit 20
            < (tokens.length : Int)
          then some (toString (startIndexOf options.cursor
            + jsOrNum options.limit 20))
          else none) = _
      rw [hlim]

/-- A sample record for the pagination witness. -/
def t8 : Token :=
  { token_address := "0xP", token_name := "P", token_ticker := "P"
    price_sol := 1, market_cap_sol := 0, volume_sol := 1
    liquidity_sol := 0, transaction_count := 0, protocol := "p" }

/-- Witness for C8: on three records with limit 2, an unparseable cursor
equals cursor `"0"`, the page is the first two records, and the next
cursor is `"2"`. -/
theorem paginateTokens_spec_witness :
    (paginateTokens [t8, t8, t8] { limit := some 2, cursor := some "not-a-number" }
      = paginateTokens [t8, t8, t8] { limit := some 2, cursor := some "0" }) ∧
    (paginateTokens [t8, t8, t8] { limit := some 2, cursor := none }).1
      = [t8, t8] ∧
    (paginateTokens [t8, t8, t8] { limit := some 2, cursor := none }).2
      = some "2" := by
  have h := paginateTokens_spec [t8, t8, t8] { limit := some 2, cursor := none }
  have h2 := h.2.2.2.2.2 2 rfl (by omega)
  refine ⟨h.1, ?_, ?_⟩
  · rw [h2.1]; rfl
  · rw [h2.2.2]; rfl

/-! ### C3 -/

/-- An axios error with a non-retryable response status (404). -/
def e404 : JsError := { isAxiosError := true, status := some 404 }

/-- Counterexample to C3 as stated: a 404 is not classified retryable,
yet `retryWithBackoff` with `maxRetries = 3` invokes the operation four
times (the full attempt budget) before propagating it, because the
immediate-rethrow guard `!isRetryable && !axios.isAxiosError(error)`
only fires for errors that are not axios errors at all. -/
theorem retryWithBackoff_counterexample :
    isRetryable retryableStatusCodes e404 = false ∧
    retryWithBackoff (fun _ => .error e404 : Nat → Except JsError Nat)
      retryableStatusCodes 3 = (Except.error e404, 4) := by
  exact ⟨rfl, rfl⟩

/-- C3 (amended): an error that is not an axios error propagates
immediately after the failing attempt, with no further invocations; an
axios error — even one whose status is not classified retryable — is
retried until the attempt budget is exhausted, after which the last
error propagates, having consumed all `maxRetries + 1` invocations. -/
theorem retryWithBackoff_spec (fn : Nat → Except JsError α)
    (codes : List Nat) (maxRetries : Nat) (e : JsError) :
    (fn 0 = .error e → e.isAxiosError = false →
      retryWithBackoff fn codes maxRetries = (.error e, 1)) ∧
    ((∀ k, fn k = .error e) → e.isAxiosError = true →
      retryWithBackoff fn codes maxRetries = (.error e, maxRetries + 1)) := by
  constructor
  · intro h0 hax
    cases maxRetries with
    | zero => simp [retryWithBackoff, retryGo, h0]
    | succ n => simp [retryWithBackoff, retryGo, h0, isRetryable, hax]
  · intro hall hax
    have key : ∀ fuel attempt,
        retryGo fn codes attempt fuel = (.error e, fuel + 1) := by
      intro fuel
      induction fuel with
      | zero => intro attempt; simp [retryGo, hall attempt]
      | succ n ih =>
        intro attempt
        simp [retryGo, hall attempt, isRetryable, hax, ih (attempt + 1)]
    exact key maxRetries 0

/-- Witness for C3 (amended): a plain (non-axios) error propagates after
one invocation; a persistent axios network error (no response status) is
invoked four times with `maxRetries = 3`. -/
theorem retryWithBackoff_spec_witness :
    retryWithBackoff (fun _ => .error { isAxiosError := false } :
        Nat → Except JsError Nat) retryableStatusCodes 3
      = (.error { isAxiosError := false }, 1) ∧
    retryWithBackoff (fun _ => .error { isAxiosError := true } :
        Nat → Except JsError Nat) retryableStatusCodes 3
      = (.error { isAxiosError := true }, 4) := by
  constructor
  · exact (retryWithBackoff_spec _ retryableStatusCodes 3
      { isAxiosError := false }).1 rfl rfl
  · exact (retryWithBackoff_spec _ retryableStatusCodes 3
      { isAxiosError := true }).2 (fun k => rfl) rfl

/-! ### C7 -/

/-- The batch of a fulfilled outcome, `none` for a rejected one. -/
def exceptValue (r : Except JsError (List Token)) : Option (List Token) :=
  match r with
  | .ok v => some v
  | .error _ => none

theorem settleAll_cons (r : Except JsError (List Token))
    (rs : List (Except JsError (List Token))) :
    settleAll (r :: rs) =
      (match r with | .ok v => v | .error _ => []) ++ settleAll rs := by
  simp [settleAll]

theorem settleAll_append (l1 l2 : List (Except JsError (List Token))) :
    settleAll (l1 ++ l2) = settleAll l1 ++ settleAll l2 := by
  simp [settleAll]

/-- C7: the settle-all join returns the concatenation of all successful
batches; a rejected provider contributes an empty batch without
disturbing the others; when every provider fails, the aggregation
resolves successfully with the empty list; and the aggregation resolves
(`.ok`) on every outcome vector — upstream failure never surfaces as an
error. -/
theorem aggregateTokens_spec (results : List (Except JsError (List Token))) :
    settleAll results = (results.filterMap exceptValue).flatten ∧
    (∀ (e : JsError) (rs1 rs2 : List (Except JsError (List Token))),
      settleAll (rs1 ++ .error e :: rs2) = settleAll (rs1 ++ rs2)) ∧
    ((∀ r ∈ results, exceptValue r = none) →
      aggregateTokens results = .ok []) ∧
    (∃ tokens, aggregateTokens results = .ok tokens) := by
  refine ⟨?_, ?_, ?_, ?_⟩
  · induction results with
    | nil => rfl
    | cons r rs ih =>
      rw [settleAll_cons]
      cases r with
      | ok v => simp [exceptValue, List.filterMap_cons, ih]
      | error e => simp [exceptValue, List.filterMap_cons, ih]
  · intro e rs1 rs2
    rw [settleAll_append, settleAll_append, settleAll_cons]
    rfl
  · intro hall
    have hempty : settleAll results = [] := by
      induction results with
      | nil => rfl
      | cons r rs ih =>
        rw [settleAll_cons]
        have hr := hall r (List.mem_cons_self _ _)
        cases r with
        | ok v => exact absurd hr (by simp [exceptValue])
        | error e =>
          simpa using ih (fun x hx => hall x (List.mem_cons_of_mem _ hx))
    simp [aggregateTokens, hempty]
  · unfold aggregateTokens
    by_cases h : (settleAll results).length = 0 <;> simp [h]

/-- Witness for C7: two failed providers and one successful pair of
batches. -/
theorem aggregateTokens_spec_witness :
    settleAll [Except.ok [t8], Except.error e404, Except.ok [t8, t8]]
      = [t8, t8, t8] ∧
    aggregateTokens [Except.error e404, Except.error e404] = .ok [] := by
  constructor
  · rw [(aggregateTokens_spec
      [Except.ok [t8], Except.error e404, Except.ok [t8, t8]]).1]
    rfl
  · exact (aggregateTokens_spec [Except.error e404, Except.error e404]).2.2.1
      (by decide)

/-! ### C2 -/

/-- Merging a two-record batch with one shared (case-insensitive)
identity key is one conflict resolution. -/
theorem mergeTokens_pair (t1 t2 : Token)
    (hk : jsToLower t2.token_address = jsToLower t1.token_address) :
    mergeTokens [t1, t2] = [mergeTokenData t1 t2] := by
  unfold mergeTokens
  simp [mergeStep, mapGet, mapSet, hk]

/-- The merged-record contract, field by field, in terms of a primary
record `p` and a secondary record `s` (amended from the claim: the
timestamp comparison is strict, so on an exact timestamp tie the
**secondary** record's price is taken; a zero timestamp is falsy and
counts as absent). -/
def mergedRecordSpec (m p s : Token) : Prop :=
  m.token_address = p.token_address ∧
  m.token_name = p.token_name ∧
  m.token_ticker = p.token_ticker ∧
  m.protocol = p.protocol ∧
  m.source = some (tmplStr p.source ++ "," ++ tmplStr s.source) ∧
  m.volume_sol = max p.volume_sol s.volume_sol ∧
  m.liquidity_sol = max p.liquidity_sol s.liquidity_sol ∧
  m.market_cap_sol =
    (if p.market_cap_sol = 0 then s.market_cap_sol else p.market_cap_sol) ∧
  m.transaction_count = max p.transaction_count s.transaction_count ∧
  m.price_sol =
    (if truthyNum p.last_updated ∧ truthyNum s.last_updated then
      (if p.last_updated.getD 0 > s.last_updated.getD 0 then p.price_sol
       else s.price_sol)
     else p.price_sol)

/-- C2 (amended): merging two records with one case-insensitive identity
key yields a single record satisfying the field-by-field contract, with
the higher-completeness record primary and the first-seen record primary
on a score tie; the price comes from the strictly more recent truthy
timestamp, the secondary winning exact ties, the primary winning when
either timestamp is absent or zero.  (The claim's scenario with sources
"a" and "b" produces provenance `"b,a"`, not `"a,b"`: the record from
"b" scores higher.) -/
theorem mergeTokens_pair_fields (t1 t2 : Token)
    (hk : jsToLower t2.token_address = jsToLower t1.token_address) :
    mergeTokens [t1, t2] = [mergeTokenData t1 t2] ∧
    (calculateDataCompleteness t2 ≤ calculateDataCompleteness t1 →
      mergedRecordSpec (mergeTokenData t1 t2) t1 t2) ∧
    (calculateDataCompleteness t1 < calculateDataCompleteness t2 →
      mergedRecordSpec (mergeTokenData t1 t2) t2 t1) := by
  refine ⟨mergeTokens_pair t1 t2 hk, ?_, ?_⟩
  · intro h
    have hge : calculateDataCompleteness t1 ≥ calculateDataCompleteness t2 := h
    unfold mergedRecordSpec
    simp [mergeTokenData, hge]
  · intro h
    have hnge : ¬ calculateDataCompleteness t1 ≥ calculateDataCompleteness t2 :=
      not_le.mpr h
    unfold mergedRecordSpec
    simp [mergeTokenData, hnge]

/-- The claim's scenario record from source "a": volume 500, liquidity 0
(all other metrics empty).  Its completeness score is 3. -/
def ta2 : Token :=
  { token_address := "0xABC", token_name := "A", token_ticker := "A"
    price_sol := 1, market_cap_sol := 0, volume_sol := 500
    liquidity_sol := 0, transaction_count := 0
    protocol := "pa", source := some "a" }

/-- The claim's scenario record from source "b": volume 300, liquidity
200.  Its completeness score is 5, so it becomes primary. -/
def tb2 : Token :=
  { token_address := "0xabc", token_name := "B", token_ticker := "B"
    price_sol := 2, market_cap_sol := 0, volume_sol := 300
    liquidity_sol := 200, transaction_count := 0
    protocol := "pb", source := some "b" }

/-- A record scoring 3 with timestamp 5 and price 100. -/
def c2p1 : Token :=
  { token_address := "k", token_name := "P1", token_ticker := "P1"
    price_sol := 100, market_cap_sol := 0, volume_sol := 1
    liquidity_sol := 0, transaction_count := 0
    protocol := "p", source := some "x", last_updated := some 5 }

/-- A record scoring 0 with the same timestamp 5 and price 200. -/
def c2p2 : Token :=
  { token_address := "K", token_name := "P2", token_ticker := "P2"
    price_sol := 200, market_cap_sol := 0, volume_sol := 0
    liquidity_sol := 0, transaction_count := 0
    protocol := "p", source := some "y", last_updated := some 5 }

/-- Counterexample to C2 as stated, in both of its parts: (1) on an
exact timestamp tie the merged price is the secondary's (`200`), not the
primary's (`100`) as the claim's "primary winning ties" requires; (2) in
the volume-500/liquidity-200 scenario the record from source "b" scores
higher (5 > 3) and becomes primary, so the provenance is `"b,a"`, not
the claimed `"a,b"`. -/
theorem mergeTokenData_counterexample :
    calculateDataCompleteness c2p2 < calculateDataCompleteness c2p1 ∧
    c2p1.last_updated = c2p2.last_updated ∧
    (mergeTokenData c2p1 c2p2).price_sol = 200 ∧
    c2p1.price_sol = 100 ∧
    (mergeTokens [ta2, tb2]).map (fun t => t.source) = [some "b,a"] ∧
    (mergeTokens [ta2, tb2]).map (fun t => t.volume_sol) = [500] ∧
    (mergeTokens [ta2, tb2]).map (fun t => t.liquidity_sol) = [200] := by
  refine ⟨by decide, by decide, by decide, by decide, by decide, by decide,
    by decide⟩

/-- Witness for C2 (amended) at the claim's own scenario: the "b" record
scores higher, so the merged record takes b's identity and name, joins
the sources as `"b,a"`, and takes the field-wise maxima (volume 500,
liquidity 200). -/
theorem mergeTokens_pair_fields_witness :
    mergeTokens [ta2, tb2] = [mergeTokenData ta2 tb2] ∧
    mergedRecordSpec (mergeTokenData ta2 tb2) tb2 ta2 := by
  have h := mergeTokens_pair_fields ta2 tb2 (by decide)
  exact ⟨h.1, h.2.2 (by decide)⟩

/-! ### C4 -/

/-- C4 (amended): for records with equal completeness scores and one
shared identity key, merging `[A, B]` and `[B, A]` each yield a single
record; volume, liquidity and transaction count are order-independent,
and the price is order-independent whenever both timestamps are truthy
and distinct; but the fields taken from the primary — identity, name,
category, the provenance join order, the market value when both are
nonzero, and the price on a timestamp tie — follow whichever record was
seen first. -/
theorem mergeTokens_order_spec (A B : Token)
    (hk : jsToLower B.token_address = jsToLower A.token_address)
    (h : calculateDataCompleteness A = calculateDataCompleteness B) :
    mergeTokens [A, B] = [mergeTokenData A B] ∧
    mergeTokens [B, A] = [mergeTokenData B A] ∧
    (mergeTokenData A B).volume_sol = (mergeTokenData B A).volume_sol ∧
    (mergeTokenData A B).liquidity_sol = (mergeTokenData B A).liquidity_sol ∧
    (mergeTokenData A B).transaction_count
      = (mergeTokenData B A).transaction_count ∧
    (∀ u v : Int, A.last_updated = some u → B.last_updated = some v →
      u ≠ 0 → v ≠ 0 → u ≠ v →
      (mergeTokenData A B).price_sol = (mergeTokenData B A).price_sol) ∧
    (mergeTokenData A B).token_name = A.token_name ∧
    (mergeTokenData A B).protocol = A.protocol ∧
    (mergeTokenData B A).token_name = B.token_name ∧
    (mergeTokenData B A).protocol = B.protocol := by
  have hge1 : calculateDataCompleteness A ≥ calculateDataCompleteness B := h.ge
  have hge2 : calculateDataCompleteness B ≥ calculateDataCompleteness A := h.le
  refine ⟨mergeTokens_pair A B hk, mergeTokens_pair B A hk.symm, ?_, ?_, ?_,
    ?_, ?_, ?_, ?_, ?_⟩
  · simp [mergeTokenData, hge1, hge2, max_comm]
  · simp [mergeTokenData, hge1, hge2, max_comm]
  · simp [mergeTokenData, hge1, hge2, max_comm]
  · intro u v hu hv hu0 hv0 huv
    simp only [mergeTokenData, hge1, hge2, if_pos, hu, hv, truthyNum,
      Option.getD_some]
    have htu : (u != 0) = true := by simpa using hu0
    have htv : (v != 0) = true := by simpa using hv0
    simp only [htu, htv, Bool.and_self, and_self, if_true]
    rcases lt_or_gt_of_ne huv with hlt | hgt
    · rw [if_neg (by omega), if_pos (by omega)]
    · rw [if_pos (by omega), if_neg (by omega)]
  · simp [mergeTokenData, hge1]
  · simp [mergeTokenData, hge1]
  · simp [mergeTokenData, hge2]
  · simp [mergeTokenData, hge2]

/-- Equal-score records differing only in market value (both nonzero):
order-dependent merge output. -/
def a4 : Token :=
  { token_address := "kk", token_name := "N", token_ticker := "N"
    price_sol := 9, market_cap_sol := 5, volume_sol := 1
    liquidity_sol := 0, transaction_count := 0
    protocol := "P", source := some "s", last_updated := some 3 }

/-- Same as `a4` except market value 7. -/
def b4 : Token := { a4 with market_cap_sol := 7 }

/-- Counterexample to C4 as stated: `a4` and `b4` have equal completeness
scores and agree on name and category (and every field the claim allows
to differ), yet merging `[a4, b4]` gives market value 5 while `[b4, a4]`
gives 7 — a difference outside the claim's name/category allowance. -/
theorem mergeTokens_order_counterexample :
    calculateDataCompleteness a4 = calculateDataCompleteness b4 ∧
    a4.token_name = b4.token_name ∧
    a4.protocol = b4.protocol ∧
    (mergeTokens [a4, b4]).map (fun t => t.market_cap_sol) = [5] ∧
    (mergeTokens [b4, a4]).map (fun t => t.market_cap_sol) = [7] := by
  refine ⟨by decide, by decide, by decide, by decide, by decide⟩

/-- Equal-score records with distinct truthy timestamps for the C4
witness. -/
def a4w : Token := { a4 with last_updated := some 1, price_sol := 10 }

/-- Partner of `a4w` with the later timestamp. -/
def b4w : Token :=
  { a4 with token_name := "M", last_updated := some 2, price_sol := 20 }

/-- Witness for C4 (amended): volume and price (distinct timestamps)
agree across both merge orders, names follow the first-seen record. -/
theorem mergeTokens_order_spec_witness :
    (mergeTokenData a4w b4w).volume_sol = (mergeTokenData b4w a4w).volume_sol ∧
    (mergeTokenData a4w b4w).price_sol = (mergeTokenData b4w a4w).price_sol ∧
    (mergeTokenData a4w b4w).token_name = a4w.token_name ∧
    (mergeTokenData b4w a4w).token_name = b4w.token_name := by
  have h := mergeTokens_order_spec a4w b4w (by decide) (by decide)
  exact ⟨h.2.2.1, h.2.2.2.2.2.1 1 2 rfl rfl (by decide) (by decide) (by decide),
    h.2.2.2.2.2.2.1, h.2.2.2.2.2.2.2.2.1⟩

/-! ### C1 -/

/-- Counterexample to C1 as stated: two `getOrSet` callers on the same
key, both resumed past their cache read (both miss) while the first
compute is still pending — the schedule `[0, 1, 0, 0, 1, 1]` reads for
caller 0, reads for caller 1 (caller 0's compute has not resolved), then
lets each compute and write resolve.  The compute function (a constant,
so deterministic) is invoked twice, not "exactly once": `getOrSet`
re-reads the cache and calls `fetchFn` with no in-flight bookkeeping
(cache.ts:161-176 holds no pending-promise map). -/
theorem getOrSet_counterexample :
    (cacheRun (fun _ => (42 : Nat)) [0, 1, 0, 0, 1, 1]).invocations = 2 ∧
    (cacheRun (fun _ => (42 : Nat)) [0, 1, 0, 0, 1, 1]).phase 0
      = CallerPhase.finished 42 ∧
    (cacheRun (fun _ => (42 : Nat)) [0, 1, 0, 0, 1, 1]).phase 1
      = CallerPhase.finished 42 := by
  refine ⟨rfl, rfl, rfl⟩

/-- A resumed caller that reads an empty slot moves on to invoking the
compute function and changes nothing else. -/
theorem cacheStep_ready_miss {s : CacheRun V} {i : Nat} (fetch : Nat → V)
    (hp : s.phase i = CallerPhase.ready) (hs : s.slot = none) :
    cacheStep fetch s i =
      { s with phase := fun j =>
          if j = i then CallerPhase.toInvoke else s.phase j } := by
  unfold cacheStep
  rw [hp, hs]

/-- A resumed caller whose compute resolves increments the invocation
count and moves on to the write, carrying its own invocation's value. -/
theorem cacheStep_toInvoke {s : CacheRun V} {i : Nat} (fetch : Nat → V)
    (hp : s.phase i = CallerPhase.toInvoke) :
    cacheStep fetch s i =
      { s with
        invocations := s.invocations + 1
        phase := fun j =>
          if j = i then CallerPhase.toWrite (fetch s.invocations)
          else s.phase j } := by
  unfold cacheStep
  rw [hp]

/-- A resumed caller whose write resolves stores its value and finishes
with that same value (the store precedes the return). -/
theorem cacheStep_toWrite {s : CacheRun V} {i : Nat} {v : V} (fetch : Nat → V)
    (hp : s.phase i = CallerPhase.toWrite v) :
    cacheStep fetch s i =
      { s with
        slot := some v
        phase := fun j =>
          if j = i then CallerPhase.finished v else s.phase j } := by
  unfold cacheStep
  rw [hp]

/-- After the read prefix of the schedule, every one of the `n` callers
has missed and is about to invoke the compute function. -/
theorem cacheRun_reads (fetch : Nat → V) (n : Nat) :
    (List.foldl (cacheStep fetch) (cacheInit V) (List.range n)).slot = none ∧
    (List.foldl (cacheStep fetch) (cacheInit V) (List.range n)).invocations
      = 0 ∧
    ∀ j, (List.foldl (cacheStep fetch) (cacheInit V) (List.range n)).phase j
      = if j < n then CallerPhase.toInvoke else CallerPhase.ready := by
  induction n with
  | zero =>
    refine ⟨rfl, rfl, fun j => ?_⟩
    simp [cacheInit]
  | succ n ih =>
    obtain ⟨ih1, ih2, ih3⟩ := ih
    rw [List.range_succ, List.foldl_append, List.foldl_cons, List.foldl_nil]
    have hp : (List.foldl (cacheStep fetch) (cacheInit V)
        (List.range n)).phase n = CallerPhase.ready := by
      rw [ih3 n]; simp
    rw [cacheStep_ready_miss fetch hp ih1]
    refine ⟨ih1, ih2, fun j => ?_⟩
    by_cases hj : j = n
    · simp [hj]
    · by_cases hjn : j < n
      · simp [hj, hjn, Nat.lt_succ_of_lt hjn, ih3 j]
      · have hj1 : ¬ j < n + 1 := by omega
        simp [hj, hjn, hj1, ih3 j]

/-- Folding the compute/write pairs of the first `k` callers: each one
increments the invocation counter, stores its own result, and finishes
with it. -/
theorem cacheRun_pairs (fetch : Nat → V) (n : Nat) :
    ∀ k, k ≤ n →
    (List.foldl (cacheStep fetch)
      (List.foldl (cacheStep fetch) (cacheInit V) (List.range n))
      ((List.range k).flatMap (fun i => [i, i]))).slot
      = (if k = 0 then none else some (fetch (k - 1))) ∧
    (List.foldl (cacheStep fetch)
      (List.foldl (cacheStep fetch) (cacheInit V) (List.range n))
      ((List.range k).flatMap (fun i => [i, i]))).invocations = k ∧
    ∀ j, (List.foldl (cacheStep fetch)
      (List.foldl (cacheStep fetch) (cacheInit V) (List.range n))
      ((List.range k).flatMap (fun i => [i, i]))).phase j
      = if j < k then CallerPhase.finished (fetch j)
        else if j < n then CallerPhase.toInvoke else CallerPhase.ready := by
  intro k
  induction k with
  | zero =>
    intro _
    obtain ⟨h1, h2, h3⟩ := cacheRun_reads fetch (V := V) n
    simp only [List.range_zero, List.flatMap_nil, List.foldl_nil]
    refine ⟨by simpa using h1, h2, fun j => ?_⟩
    rw [h3 j]
    simp
  | succ k ih =>
    intro hk
    obtain ⟨ih1, ih2, ih3⟩ := ih (by omega)
    have hkn : k < n := by omega
    rw [List.range_succ, List.flatMap_append, List.foldl_append]
    simp only [List.flatMap_cons, List.flatMap_nil, List.append_nil,
      List.foldl_cons, List.foldl_nil]
    have hp1 : (List.foldl (cacheStep fetch)
        (List.foldl (cacheStep fetch) (cacheInit V) (List.range n))
        ((List.range k).flatMap (fun i => [i, i]))).phase k
        = CallerPhase.toInvoke := by
      rw [ih3 k]
      simp [hkn]
    rw [cacheStep_toInvoke fetch hp1, ih2]
    have hp2 : ∀ j, (if j = k then CallerPhase.toWrite (fetch k)
        else (List.foldl (cacheStep fetch)
          (List.foldl (cacheStep fetch) (cacheInit V) (List.range n))
          ((List.range k).flatMap (fun i => [i, i]))).phase j)
        = CallerPhase.toWrite (fetch k) → j = k := by
      intro j hj
      by_cases h : j = k
      · exact h
      · rw [if_neg h, ih3 j] at hj
        by_cases hjk : j < k <;> by_cases hjn : j < n <;> simp_all
    rw [cacheStep_toWrite fetch (v := fetch k) (by simp)]
    refine ⟨by simp, rfl, fun j => ?_⟩
    by_cases hj : j = k
    · simp [hj, Nat.lt_succ_self]
    · by_cases hjk : j < k
      · have : j < k + 1 := by omega
        simp [hj, hjk, this, ih3 j]
      · have hj1 : ¬ j < k + 1 := by omega
        simp [hj, hjk, hj1, ih3 j]

/-- C1 (amended): `getOrSet` performs no single-flight deduplication.
When `n` concurrent callers on one key all pass their cache read (all
missing) before any compute resolves, the compute function is invoked
`n` times — once per caller — and each caller stores and then returns
the value its own invocation produced (`fetch i` for the `i`-th
invocation; the values coincide only because the compute function is
deterministic).  Each caller's store precedes its return (`await
this.set` runs before `return data`), and the cache slot ends holding
the last write — the value of the final invocation. -/
theorem getOrSet_no_single_flight (fetch : Nat → V) (n : Nat) :
    (cacheRun fetch (concurrentSched n)).invocations = n ∧
    (∀ i, i < n → (cacheRun fetch (concurrentSched n)).phase i
      = CallerPhase.finished (fetch i)) ∧
    (0 < n → (cacheRun fetch (concurrentSched n)).slot
      = some (fetch (n - 1))) := by
  obtain ⟨h1, h2, h3⟩ := cacheRun_pairs fetch n n le_rfl
  unfold cacheRun concurrentSched
  rw [List.foldl_append]
  refine ⟨h2, fun i hi => ?_, fun hn => ?_⟩
  · rw [h3 i]
    simp [hi]
  · rw [h1]
    have hne : n ≠ 0 := by omega
    simp [hne]

/-- Witness for C1 (amended) at `n = 2` with the invocation-indexed
compute `fetch k = k`: two invocations, caller 0 returns `0`, caller 1
returns `1`, and the slot holds the last write. -/
theorem getOrSet_no_single_flight_witness :
    (cacheRun (fun k => k) (concurrentSched 2)).invocations = 2 ∧
    (cacheRun (fun k => k) (concurrentSched 2)).phase 0
      = CallerPhase.finished 0 ∧
    (cacheRun (fun k => k) (concurrentSched 2)).phase 1
      = CallerPhase.finished 1 ∧
    (cacheRun (fun k => k) (concurrentSched 2)).slot = some 1 := by
  obtain ⟨h1, h2, h3⟩ := getOrSet_no_single_flight (fun k => k) 2
  exact ⟨h1, h2 0 (by omega), h2 1 (by omega), h3 (by omega)⟩

end Agg
